import Mathlib

/-!
# Shallow embedding of the huanyango VFD controller (v1/vfdio/inverter.go)

Modelling conventions:

* Bytes are `ℕ` values below 256; 16-bit quantities are `ℕ` below 65536 with
  explicit `% 65536` where Go truncates.
* Go strings are embedded as `List Char`.
* Go `float32` arithmetic is idealized as exact rational arithmetic over `ℚ`:
  the calibration constant `rpmToHertz = 3.47222` is kept as the exact rational
  347222/100000, and `uint16(f)` of a nonnegative in-range float is floor
  (truncation toward zero).  Every concrete input used in the theorems below is
  far from a float32 rounding boundary, so the idealization does not change any
  of the evaluated results.
* Timestamps (`time.Time`) are idealized as `ℚ`; `time.Now()` is passed to the
  telemetry parser as an explicit `now` argument.
* The buffered channel `cmdChannel` (capacity 10) is embedded as a `List` of
  tokens together with the capacity bound 10; a non-blocking send succeeds
  exactly when the buffer holds fewer than 10 elements.
-/

set_option maxRecDepth 400000

namespace Huanyango

/- The Batteries rational-number operations are `irreducible` by default; the
concrete evaluations below need them to unfold. -/
attribute [local semireducible] Rat.mul Rat.add Rat.inv Rat.sub

/-! ## FrameCodec: CRC16 (MODBUS variant), from github.com/npat-efault/crc16

The configuration `crc16.Modbus` is poly 0x8005 bit-reversed (0xA001),
initial value 0xFFFF, no final xor, little-endian `Sum` (low byte first).
-/

/-- One shift step of the bit-reversed CRC16 loop: shift right, xor 0xA001
when the dropped bit was set. -/
def crcBit (c : ℕ) : ℕ :=
  if c % 2 = 1 then (c / 2) ^^^ 0xA001 else c / 2

/-- Feed one byte into the running CRC: xor it in, then run eight bit steps. -/
def crcFeed (c b : ℕ) : ℕ :=
  crcBit (crcBit (crcBit (crcBit (crcBit (crcBit (crcBit (crcBit (c ^^^ b))))))))

/-- CRC16/MODBUS of a byte list: initial value 0xFFFF, no final xor. -/
def crc16 (data : List ℕ) : ℕ :=
  data.foldl crcFeed 0xFFFF

/-- The two bytes `Hash16.Sum` appends for the Modbus configuration
(`BigEnd = false`): low byte first, then high byte. -/
def crcAppendBytes (data : List ℕ) : List ℕ :=
  [crc16 data % 256, crc16 data / 256]

/-- `signMessage` (inverter.go:252-256): resets the hash, writes `data`, and
returns `Sum(data)`, i.e. `data` with the two CRC bytes appended. -/
def signMessage (data : List ℕ) : List ℕ :=
  data ++ crcAppendBytes data

/-! ## Drive state -/

/-- Go `uint16(f)` for a nonnegative in-range `float32` value truncates toward
zero; the low 16 bits are kept (float arithmetic idealized as exact `ℚ`). -/
def ratToUint16 (q : ℚ) : ℕ :=
  (⌊q⌋).toNat % 65536

/-- The mutable run-time fields of `HyInverter` (inverter.go:29-45) that the
claims are about.  `queue` embeds the buffered channel `cmdChannel`
(capacity 10), `commandQueue` the atomic `int32` counter. -/
structure HyInverter where
  setFrequency : ℕ
  outputFrequency : ℕ
  outputRpm : ℕ
  lastReceived : ℚ
  rpmToHertz : ℚ
  maxRpm : ℕ
  commandQueue : ℤ
  queue : List (List Char)
  deriving DecidableEq, Repr

/-- A handle with the demo defaults (`rpmToHertz = 3.47222`, `maxRpm = 11520`)
and all run-time fields zeroed, as right after `Open`. -/
def initVfd : HyInverter :=
  { setFrequency := 0
    outputFrequency := 0
    outputRpm := 0
    lastReceived := 0
    rpmToHertz := 347222 / 100000
    maxRpm := 11520
    commandQueue := 0
    queue := [] }

/-- `OutputFrequency` (inverter.go:206-208). -/
def OutputFrequency (o : HyInverter) : ℕ :=
  o.outputFrequency

/-- `OutputRpm` (inverter.go:212-214). -/
def OutputRpm (o : HyInverter) : ℕ :=
  o.outputRpm

/-! ## Telemetry parsing -/

/-- `parseModbusRTU` (inverter.go:186-202).

In the Go source, `signTest := handle.signMessage(msg[:6])` calls
`Hash16.Sum(msg[:6])`, which `append`s the two freshly computed CRC bytes to
the slice `msg[:6]`.  Whenever `len(msg) == 8` we have `cap(msg[:6]) =
cap(msg) ≥ len(msg) = 8`, so the append happens **in place**: it overwrites
`msg[6]` and `msg[7]` in the backing array, and `signTest` aliases that same
array.  The subsequent comparison `signTest[6] == msg[6] && signTest[7] ==
msg[7]` therefore compares the recomputed CRC bytes with themselves and always
succeeds.  The embedding keeps both the aliased buffer (`msgAfter`) and
`signTest` explicit so that this behaviour is visible rather than silently
simplified away. -/
def parseModbusRTU (s : HyInverter) (msg : List ℕ) (now : ℚ) : HyInverter :=
  if msg.length = 8 then
    if msg.getD 0 0 = 0x01 ∧ msg.getD 1 0 = 0x04 ∧ msg.getD 2 0 = 0x03 ∧
        msg.getD 3 0 = 0x01 then
      let signTest := signMessage (msg.take 6)
      let msgAfter := msg.take 6 ++ crcAppendBytes (msg.take 6)
      if signTest.getD 6 0 = msgAfter.getD 6 0 ∧
          signTest.getD 7 0 = msgAfter.getD 7 0 then
        let f := 256 * msg.getD 4 0 + msg.getD 5 0
        { s with
            outputFrequency := f
            outputRpm := ratToUint16 ((f : ℚ) / s.rpmToHertz)
            lastReceived := now }
      else s
    else s
  else s

/-! ## Character helpers (ASCII fragments of Go's strings/unicode/strconv) -/

/-- Go `unicode.IsSpace` (the code points it recognizes below U+0100). -/
def goIsSpace (c : Char) : Bool :=
  c.toNat = 9 ∨ c.toNat = 10 ∨ c.toNat = 11 ∨ c.toNat = 12 ∨ c.toNat = 13 ∨
    c.toNat = 32 ∨ c.toNat = 133 ∨ c.toNat = 160

/-- ASCII decimal digit, as accepted by `strconv.ParseUint` in base 10. -/
def goIsDigit (c : Char) : Bool :=
  48 ≤ c.toNat ∧ c.toNat ≤ 57

/-- ASCII letter, the class `[a-zA-Z]` of the `gcodeSeparator` pattern. -/
def goIsAlpha (c : Char) : Bool :=
  (65 ≤ c.toNat ∧ c.toNat ≤ 90) ∨ (97 ≤ c.toNat ∧ c.toNat ≤ 122)

/-- The class `[\-+]` of the `gcodeSeparator` pattern. -/
def goIsSign (c : Char) : Bool :=
  c = '-' ∨ c = '+'

/-- The literal `\.` of the `gcodeSeparator` pattern. -/
def goIsDot (c : Char) : Bool :=
  c = '.'

/-- Go `strings.ToLower` on one character (ASCII range; the tokens the claims
are about are all ASCII). -/
def goToLowerChar (c : Char) : Char :=
  if 65 ≤ c.toNat ∧ c.toNat ≤ 90 then Char.ofNat (c.toNat + 32) else c

/-- Go `strings.ToLower`. -/
def goToLower (cs : List Char) : List Char :=
  cs.map goToLowerChar

/-- Go `strings.TrimSpace`: drop leading and trailing white space. -/
def goTrimSpace (cs : List Char) : List Char :=
  (((cs.dropWhile goIsSpace).reverse.dropWhile goIsSpace)).reverse

/-- The normalization the processor applies to a dequeued token
(inverter.go:126): `strings.TrimSpace(strings.ToLower(cmd))`. -/
def normalizeCmd (cs : List Char) : List Char :=
  goTrimSpace (goToLower cs)

/-- Numeric value of a digit string (most significant digit first). -/
def digitsVal (ds : List Char) : ℕ :=
  ds.foldl (fun n c => 10 * n + (c.toNat - 48)) 0

/-- Go `strconv.ParseUint(s, 10, 16)` restricted to its success value: it
succeeds exactly on a nonempty all-digit string whose value fits in 16 bits
(range overflow is reported as an error, which the processor treats as an
unrecognized token). -/
def goParseUint16 (ds : List Char) : Option ℕ :=
  if ds ≠ [] ∧ ds.all goIsDigit ∧ digitsVal ds < 65536 then
    some (digitsVal ds)
  else none

/-! ## The command processor (inverter.go:122-159)

One iteration of the `processor` loop, applied to one dequeued token: it
returns the updated handle state together with the frame written to the serial
port (`none` when the token is unrecognized and nothing is written).  The
`commandQueue` decrement done at the top of the loop body is modelled in
`GCode`/`gcodeEnqueue` accounting and not repeated here; the claims under
proof quantify over the processor's parsing and frame output. -/
def processOne (s : HyInverter) (cmd0 : List Char) : HyInverter × Option (List ℕ) :=
  let cmd := normalizeCmd cmd0
  if cmd = ['e', 'n', 'd'] ∨ cmd = ['m', '0'] ∨ cmd = ['m', '1'] ∨
      cmd = ['m', '3', '0'] ∨ cmd = ['m', '6', '0'] ∨ cmd = ['m', '5'] ∨
      cmd = ['m', '0', '5'] then
    (s, some (signMessage [0x01, 0x03, 0x01, 0x08]))
  else if cmd = ['m', '3'] ∨ cmd = ['m', '0', '3'] then
    (s, some (signMessage [0x01, 0x03, 0x01, 0x01]))
  else if cmd = ['m', '4'] ∨ cmd = ['m', '0', '4'] then
    (s, some (signMessage [0x01, 0x03, 0x01, 0x11]))
  else if cmd.head? = some 's' then
    match goParseUint16 cmd.tail with
    | some outputRpm =>
        let inverterFrequency := ratToUint16 ((outputRpm : ℚ) * s.rpmToHertz)
        ({ s with setFrequency := inverterFrequency },
          some (signMessage
            [0x01, 0x05, 0x02, inverterFrequency / 256, inverterFrequency % 256]))
    | none => (s, none)
  else if cmd = ['?'] then
    (s, some (signMessage [0x01, 0x04, 0x03, 0x01, 0x00, 0x00]))
  else
    (s, none)

/-! ## Commands as the specification describes them -/

/-- The command vocabulary of the specification's data model. -/
inductive Command where
  | stop
  | runForward
  | runBackward
  | setSpeed (targetRpm : ℕ)
  | queryFrequency
  deriving DecidableEq, Repr

/-- The token-to-variant map as the (amended) specification states it:
`end|m0|m1|m30|m60|m5|m05` give Stop, `m3|m03` RunForward, `m4|m04`
RunBackward, `s<digits>` with a value below 2^16 SetSpeed, `?`
QueryFrequency, and every other token no command. -/
def specTokenMap (t : List Char) : Option Command :=
  if t ∈ [['e', 'n', 'd'], ['m', '0'], ['m', '1'], ['m', '3', '0'],
      ['m', '6', '0'], ['m', '5'], ['m', '0', '5']] then
    some Command.stop
  else if t ∈ [['m', '3'], ['m', '0', '3']] then
    some Command.runForward
  else if t ∈ [['m', '4'], ['m', '0', '4']] then
    some Command.runBackward
  else if t.head? = some 's' ∧ t.tail ≠ [] ∧ t.tail.all goIsDigit ∧
      digitsVal t.tail < 65536 then
    some (Command.setSpeed (digitsVal t.tail))
  else if t = ['?'] then
    some Command.queryFrequency
  else none

/-- The payload table of the specification (§6), with the SetSpeed frequency
derived from the target rpm by the §4.2 conversion (truncating, see C6). -/
def specPayload (h : ℚ) : Command → List ℕ
  | Command.stop => [0x01, 0x03, 0x01, 0x08]
  | Command.runForward => [0x01, 0x03, 0x01, 0x01]
  | Command.runBackward => [0x01, 0x03, 0x01, 0x11]
  | Command.setSpeed targetRpm =>
      let f := ratToUint16 ((targetRpm : ℚ) * h)
      [0x01, 0x05, 0x02, f / 256, f % 256]
  | Command.queryFrequency => [0x01, 0x04, 0x03, 0x01, 0x00, 0x00]

/-! ## GCode submission (inverter.go:104-120) -/

/-- Go `strings.Fields`: split on runs of white space, dropping empties. -/
def goFields (cs : List Char) : List (List Char) :=
  (cs.foldr
    (fun c acc =>
      if goIsSpace c then [] :: acc
      else
        match acc with
        | [] => [[c]]
        | w :: ws => (c :: w) :: ws)
    []).filter (fun w => w ≠ [])

/-- One leftmost match of the `gcodeSeparator` pattern
`([a-zA-Z][\-+]*\d+\.*\d*)\s*` at the head of the input: returns the
capture group together with the remaining input after the group (before the
`\s*` part), or `none` when the pattern does not match here.  The pattern is
deterministic (each quantified class is disjoint from what follows), so the
greedy scan below is exactly the regexp's leftmost match. -/
def sepGroup : List Char → Option (List Char × List Char)
  | [] => none
  | c :: rest =>
    if goIsAlpha c then
      let signs := rest.takeWhile goIsSign
      let r1 := rest.dropWhile goIsSign
      let ds := r1.takeWhile goIsDigit
      let r2 := r1.dropWhile goIsDigit
      if ds = [] then none
      else
        let dots := r2.takeWhile goIsDot
        let r3 := r2.dropWhile goIsDot
        let ds2 := r3.takeWhile goIsDigit
        let r4 := r3.dropWhile goIsDigit
        some (c :: (signs ++ ds ++ dots ++ ds2), r4)
    else none

/-- Scanner loop for `ReplaceAllString`, with explicit fuel so that the
recursion is structural (each step consumes at least one input character, so
`fuel = length of the input` never runs out; the fuel-exhausted branch
returns the remaining input unchanged and is unreachable from
`gcodeSeparate`). -/
def gcodeSepAux : ℕ → List Char → List Char
  | 0, cs => cs
  | _ + 1, [] => []
  | fuel + 1, c :: rest =>
    match sepGroup (c :: rest) with
    | some (g, r) => g ++ ' ' :: gcodeSepAux fuel (r.dropWhile goIsSpace)
    | none => c :: gcodeSepAux fuel rest

/-- `gcodeSeparator.ReplaceAllString(cmd, dollar1 ++ space)` (inverter.go:57,
applied at inverter.go:106): every match of the pattern is replaced by its
capture group followed by a single space; the whitespace the match consumed
after the group is dropped. -/
def gcodeSeparate (cs : List Char) : List Char :=
  gcodeSepAux cs.length cs

/-- The per-token enqueue loop of `GCode` (inverter.go:109-118): a
non-blocking send on the capacity-10 channel succeeds when fewer than 10
tokens are buffered; on failure the token is dropped, the pending counter is
decremented back, and the call is marked not ok. -/
def gcodeEnqueue : HyInverter → Bool → List (List Char) → HyInverter × Bool
  | s, ok, [] => (s, ok)
  | s, ok, t :: ts =>
    if s.queue.length < 10 then
      gcodeEnqueue { s with queue := s.queue ++ [t] } ok ts
    else
      gcodeEnqueue { s with commandQueue := s.commandQueue - 1 } false ts

/-- `GCode` (inverter.go:104-120): separate run-together commands with the
`gcodeSeparator` pattern, split into whitespace-separated tokens, bulk-add the
token count to the pending counter, then enqueue each token in order. -/
def GCode (s : HyInverter) (cmd : List Char) : HyInverter × Bool :=
  let subCmds := goFields (gcodeSeparate cmd)
  gcodeEnqueue { s with commandQueue := s.commandQueue + subCmds.length } true subCmds

/-! ## Processed (inverter.go:227-240) -/

/-- `Processed`: the float32 literals `0.9` and `1.1` are idealized as the
exact rationals 9/10 and 11/10. -/
def Processed (o : HyInverter) : Bool × Bool × Bool :=
  let lowerBound : ℚ := (o.setFrequency : ℚ) * (9 / 10)
  let upperBound : ℚ := (o.setFrequency : ℚ) * (11 / 10)
  let value : ℚ := (o.outputFrequency : ℚ)
  let outputFrequencyOk := decide (lowerBound ≤ value) && decide (value ≤ upperBound)
  let commandsProcessed := decide (o.commandQueue = 0)
  (outputFrequencyOk && commandsProcessed, outputFrequencyOk, commandsProcessed)

/-- The cross-field relation maintained by the telemetry path (amended form of
the §3 invariant): the published rpm is the truncated quotient of the
published raw frequency by the calibration constant. -/
def InvRpm (s : HyInverter) : Prop :=
  OutputRpm s = ratToUint16 ((OutputFrequency s : ℚ) / s.rpmToHertz)

/-!
## Theorems
-/

/-- C3: signing the payload `01 03 01 08` yields a 6-byte frame whose trailing
two bytes are `0xF1` followed by `0x8E` (the check value of the unit test
`TestModbusCrc16`). -/
theorem c3_sign_check_value :
    (signMessage [0x01, 0x03, 0x01, 0x08]).length = 6 ∧
    (signMessage [0x01, 0x03, 0x01, 0x08]).getD 4 0 = 0xF1 ∧
    (signMessage [0x01, 0x03, 0x01, 0x08]).getD 5 0 = 0x8E := by
  decide

/-- C2: for every payload, verifying the frame produced by `signMessage`
succeeds — recomputing the checksum over all bytes of the frame except the
trailing two yields exactly those trailing two bytes. -/
theorem c2_sign_self_verifies (payload : List ℕ) :
    crcAppendBytes ((signMessage payload).take ((signMessage payload).length - 2)) =
      (signMessage payload).drop ((signMessage payload).length - 2) := by
  have hlen : (signMessage payload).length - 2 = payload.length := by
    simp [signMessage, crcAppendBytes]
  rw [hlen]
  unfold signMessage
  rw [List.take_left, List.drop_left]

/-- C1 (code bug): an 8-byte buffer with the frequency-reply header and a
corrupted checksum still updates the drive state.  The first conjunct records
the correct CRC bytes `0x21 0x8C` of the first six bytes, so the buffer below
carries a one-bit-flipped checksum (`0x20` instead of `0x21`); the second
conjunct shows that `parseModbusRTU` nevertheless stores frequency 6, the
derived rpm 1, and the fresh timestamp.  (In the Go source the comparison in
`parseModbusRTU` reads back the CRC bytes that `signMessage(msg[:6])` has just
appended in place over `msg[6]`/`msg[7]`, so the checksum test always
passes.) -/
theorem c1_checksum_mismatch_still_updates :
    crcAppendBytes [0x01, 0x04, 0x03, 0x01, 0x00, 0x06] = [0x21, 0x8C] ∧
    parseModbusRTU initVfd [0x01, 0x04, 0x03, 0x01, 0x00, 0x06, 0x20, 0x8C] 5 =
      { initVfd with outputFrequency := 6, outputRpm := 1, lastReceived := 5 } := by
  decide

/-- C8 counterexample: after a valid telemetry update storing raw frequency 6,
the published rpm is 1 (Go truncates the float quotient toward zero), while
the claimed invariant `outputRpm = round(outputFrequency / hertzPerRpm)` would
require `round 1.728 = 2`. -/
theorem c8_rpm_is_not_rounded :
    (OutputRpm (parseModbusRTU initVfd [0x01, 0x04, 0x03, 0x01, 0x00, 0x06, 0x21, 0x8C] 5) : ℤ) ≠
      round ((OutputFrequency (parseModbusRTU initVfd
          [0x01, 0x04, 0x03, 0x01, 0x00, 0x06, 0x21, 0x8C] 5) : ℚ) /
        (parseModbusRTU initVfd [0x01, 0x04, 0x03, 0x01, 0x00, 0x06, 0x21, 0x8C] 5).rpmToHertz) := by
  decide

/-- C8 (amended): every step of the telemetry path preserves the invariant
that the published rpm equals the quotient of the published raw frequency by
the calibration constant truncated toward zero (not rounded to nearest). -/
theorem c8_rpm_truncation_invariant (s : HyInverter) (msg : List ℕ) (now : ℚ)
    (h : InvRpm s) : InvRpm (parseModbusRTU s msg now) := by
  unfold InvRpm OutputRpm OutputFrequency at h ⊢
  unfold parseModbusRTU
  dsimp only
  split_ifs with h1 h2 h3
  · rfl
  · exact h
  · exact h
  · exact h

/-- Witness for `c8_rpm_truncation_invariant` at a concrete state and a
concrete valid telemetry frame. -/
theorem c8_rpm_truncation_invariant_witness :
    InvRpm (parseModbusRTU initVfd [0x01, 0x04, 0x03, 0x01, 0x00, 0x06, 0x21, 0x8C] 5) :=
  c8_rpm_truncation_invariant initVfd [0x01, 0x04, 0x03, 0x01, 0x00, 0x06, 0x21, 0x8C] 5
    (by unfold InvRpm; decide)

/-- C4 counterexample: the token `stop` is not recognized by the processor (it
falls into the `s`-branch and fails numeric parsing, so no frame is written),
while the undocumented token `end` produces the Stop frame — contradicting
both halves of the claimed map. -/
theorem c4_stop_token_counterexample :
    (processOne initVfd ['s', 't', 'o', 'p']).2 = none ∧
    (processOne initVfd ['e', 'n', 'd']).2 =
      some (signMessage [0x01, 0x03, 0x01, 0x08]) := by
  decide

/-- C6 counterexample: `s2` is encoded as frequency 6 = ⌊2 × 3.47222⌋, not
`round (2 × 3.47222) = 7` as the claim states. -/
theorem c6_set_speed_truncates_not_rounds :
    (processOne initVfd ['s', '2']).2 = some (signMessage [0x01, 0x05, 0x02, 0, 6]) ∧
    round ((2 : ℚ) * initVfd.rpmToHertz) = 7 ∧
    (processOne initVfd ['s', '2']).2 ≠ some (signMessage [0x01, 0x05, 0x02, 0, 7]) := by
  decide

/-- C10: the `gcodeSeparator` rewrite inserts a space after each
letter-plus-number group, so the run-together input `M3S400` is enqueued as
the two tokens `M3` and `S400`, in that order, exactly as the
whitespace-separated input `M3 S400` would be. -/
theorem c10_separator_tokenizes_run_together_input :
    gcodeSeparate ['M', '3', 'S', '4', '0', '0'] =
      ['M', '3', ' ', 'S', '4', '0', '0', ' '] ∧
    (GCode initVfd ['M', '3', 'S', '4', '0', '0']).1.queue =
      [['M', '3'], ['S', '4', '0', '0']] ∧
    GCode initVfd ['M', '3', 'S', '4', '0', '0'] =
      GCode initVfd ['M', '3', ' ', 'S', '4', '0', '0'] := by
  decide


/-! ### Character-level helper lemmas -/

theorem goIsDigit_bounds {c : Char} (h : goIsDigit c = true) :
    48 ≤ c.toNat /\ c.toNat ≤ 57 := by
  simpa [goIsDigit] using h

theorem goToLowerChar_digit {c : Char} (h : goIsDigit c = true) : goToLowerChar c = c := by
  obtain ⟨h1, h2⟩ := goIsDigit_bounds h
  unfold goToLowerChar
  rw [if_neg]
  omega

theorem goIsSpace_digit {c : Char} (h : goIsDigit c = true) : goIsSpace c = false := by
  obtain ⟨h1, h2⟩ := goIsDigit_bounds h
  simp only [goIsSpace, decide_eq_false_iff_not]
  omega

theorem dropWhile_no_space {l : List Char} (h : forall c, c ∈ l → goIsSpace c = false) :
    l.dropWhile goIsSpace = l := by
  cases l with
  | nil => rfl
  | cons a as =>
      rw [List.dropWhile_cons, if_neg]
      simp [h a (List.mem_cons_self a as)]

theorem goTrimSpace_no_space {l : List Char} (h : forall c, c ∈ l → goIsSpace c = false) :
    goTrimSpace l = l := by
  unfold goTrimSpace
  rw [dropWhile_no_space h,
    dropWhile_no_space (fun c hc => h c (List.mem_reverse.mp hc)),
    List.reverse_reverse]

theorem map_toLower_digits {ds : List Char} (h : ds.all goIsDigit = true) :
    ds.map goToLowerChar = ds := by
  induction ds with
  | nil => rfl
  | cons a as ih =>
      rw [List.all_cons, Bool.and_eq_true] at h
      rw [List.map_cons, goToLowerChar_digit h.1, ih h.2]

theorem normalizeCmd_s_digits {ds : List Char} (hd : ds.all goIsDigit = true) :
    normalizeCmd ('s' :: ds) = 's' :: ds := by
  have hlow : goToLower ('s' :: ds) = 's' :: ds := by
    unfold goToLower
    rw [List.map_cons, map_toLower_digits hd]
    rfl
  unfold normalizeCmd
  rw [hlow]
  apply goTrimSpace_no_space
  intro c hc
  rcases List.mem_cons.mp hc with h | h
  · subst h; rfl
  · exact goIsSpace_digit (by
      have := List.all_eq_true.mp hd c h
      simpa using this)


/-- The processor's frame output coincides, for every token, with the
specification's token map composed with the specification's payload table
(shared workhorse for C4 and C5). -/
theorem processOne_frames (s : HyInverter) (t : List Char) :
    (processOne s t).2 =
      Option.map (fun c => signMessage (specPayload s.rpmToHertz c))
        (specTokenMap (normalizeCmd t)) := by
  unfold processOne specTokenMap
  dsimp only
  generalize normalizeCmd t = n
  simp only [List.mem_cons, List.mem_singleton, List.not_mem_nil, or_false]
  by_cases h1 : n = ['e', 'n', 'd'] ∨ n = ['m', '0'] ∨ n = ['m', '1'] ∨
      n = ['m', '3', '0'] ∨ n = ['m', '6', '0'] ∨ n = ['m', '5'] ∨ n = ['m', '0', '5']
  · rw [if_pos h1, if_pos h1]
    rfl
  · rw [if_neg h1, if_neg h1]
    by_cases h2 : n = ['m', '3'] ∨ n = ['m', '0', '3']
    · rw [if_pos h2, if_pos h2]
      rfl
    · rw [if_neg h2, if_neg h2]
      by_cases h3 : n = ['m', '4'] ∨ n = ['m', '0', '4']
      · rw [if_pos h3, if_pos h3]
        rfl
      · rw [if_neg h3, if_neg h3]
        by_cases hs : n.head? = some 's'
        · rw [if_pos hs]
          rcases hgp : goParseUint16 n.tail with _ | v
          · unfold goParseUint16 at hgp
            split at hgp
            · exact absurd hgp (by simp)
            · next hcond =>
                rw [if_neg (show ¬(n.head? = some 's' ∧ n.tail ≠ [] ∧
                    n.tail.all goIsDigit = true ∧ digitsVal n.tail < 65536) from
                    fun hx => hcond hx.2)]
                rw [if_neg (show ¬n = ['?'] by rintro rfl; exact absurd hs (by decide))]
                rfl
          · unfold goParseUint16 at hgp
            split at hgp
            · next hcond =>
                rw [if_pos (show n.head? = some 's' ∧ n.tail ≠ [] ∧
                    n.tail.all goIsDigit = true ∧ digitsVal n.tail < 65536 from
                    ⟨hs, hcond⟩)]
                injection hgp with hv
                rw [hv]
                rfl
            · exact absurd hgp (by simp)
        · rw [if_neg hs]
          rw [if_neg (show ¬(n.head? = some 's' ∧ n.tail ≠ [] ∧
              n.tail.all goIsDigit = true ∧ digitsVal n.tail < 65536) from
              fun hx => hs hx.1)]
          by_cases hq : n = ['?']
          · rw [if_pos hq, if_pos hq]
            rfl
          · rw [if_neg hq, if_neg hq]
            rfl


/-- C9: `Processed` returns `processed` true exactly when the pending counter
is zero and the output frequency lies within ±10 percent of the set
frequency; its second component holds iff the frequency is within ±10
percent, its third component holds iff the pending counter is zero, and the
first is their conjunction. -/
theorem c9_processed_iff (o : HyInverter) :
    ((Processed o).1 = true ↔
      (o.commandQueue = 0 ∧
        |(o.outputFrequency : ℚ) - (o.setFrequency : ℚ)| ≤ (o.setFrequency : ℚ) / 10)) ∧
    ((Processed o).2.1 = true ↔
      |(o.outputFrequency : ℚ) - (o.setFrequency : ℚ)| ≤ (o.setFrequency : ℚ) / 10) ∧
    ((Processed o).2.2 = true ↔ o.commandQueue = 0) := by
  have hs : (0 : ℚ) ≤ (o.setFrequency : ℚ) := Nat.cast_nonneg _
  have key : ((o.setFrequency : ℚ) * (9 / 10) ≤ (o.outputFrequency : ℚ) ∧
      (o.outputFrequency : ℚ) ≤ (o.setFrequency : ℚ) * (11 / 10)) ↔
      |(o.outputFrequency : ℚ) - (o.setFrequency : ℚ)| ≤ (o.setFrequency : ℚ) / 10 := by
    rw [abs_le]
    constructor
    · rintro ⟨h1, h2⟩
      constructor <;> linarith
    · rintro ⟨h1, h2⟩
      constructor <;> linarith
  unfold Processed
  dsimp only
  simp only [Bool.and_eq_true, decide_eq_true_eq, key]
  tauto

/-- C4 (amended): for every dequeued token, after lowercasing and trimming,
the frame the processor writes is exactly the one determined by the token
map of the amended claim — `end` (not `stop`), `m0`, `m1`, `m30`, `m60`,
`m5`, `m05` produce the Stop command, `m3`/`m03` RunForward, `m4`/`m04`
RunBackward, `s<digits>` with a value below 2^16 SetSpeed, `?`
QueryFrequency, and every other token produces no command (no frame is
written for it). -/
theorem c4_token_map (s : HyInverter) (t : List Char) :
    (processOne s t).2 =
      Option.map (fun c => signMessage (specPayload s.rpmToHertz c))
        (specTokenMap (normalizeCmd t)) :=
  processOne_frames s t

/-- C5: for every token recognized as a command, the frame written to the
transport is `signMessage` of exactly the payload the specification's table
assigns to that command. -/
theorem c5_command_payloads (s : HyInverter) (t : List Char) (c : Command)
    (h : specTokenMap (normalizeCmd t) = some c) :
    (processOne s t).2 = some (signMessage (specPayload s.rpmToHertz c)) := by
  rw [processOne_frames s t, h]
  rfl

/-- Witness for `c5_command_payloads`: the token `m3` is recognized as
RunForward and the processor writes the signed RunForward payload. -/
theorem c5_command_payloads_witness :
    (processOne initVfd ['m', '3']).2 =
      some (signMessage (specPayload initVfd.rpmToHertz Command.runForward)) :=
  c5_command_payloads initVfd ['m', '3'] Command.runForward (by decide)

/-- C6 (amended): for every token `s<digits>` whose numeric value `v` fits in
16 bits, the encoded target frequency is the product `v * hertzPerRpm`
truncated toward zero (not rounded to nearest), reduced to 16 bits, stored
big-endian in the frame payload and in `setFrequency`; the result is
independent of `maxRpm` (the bound is quantified over every state, so no
clamping occurs). -/
theorem c6_set_speed_encoding (s : HyInverter) (ds : List Char) (v : ℕ)
    (h : goParseUint16 ds = some v) :
    (processOne s ('s' :: ds)).2 =
      some (signMessage [0x01, 0x05, 0x02,
        (⌊(v : ℚ) * s.rpmToHertz⌋.toNat % 65536) / 256,
        (⌊(v : ℚ) * s.rpmToHertz⌋.toNat % 65536) % 256]) ∧
    (processOne s ('s' :: ds)).1.setFrequency =
      ⌊(v : ℚ) * s.rpmToHertz⌋.toNat % 65536 := by
  unfold goParseUint16 at h
  split at h
  · next hcond =>
      obtain ⟨hne, hdig, hlt⟩ := hcond
      injection h with hv
      have hgp : goParseUint16 ds = some (digitsVal ds) := by
        unfold goParseUint16
        rw [if_pos ⟨hne, hdig, hlt⟩]
      unfold processOne
      dsimp only
      rw [normalizeCmd_s_digits hdig]
      rw [if_neg (by simp), if_neg (by simp), if_neg (by simp)]
      rw [if_pos (show ('s' :: ds).head? = some 's' from rfl)]
      rw [show ('s' :: ds).tail = ds from rfl, hgp, hv]
      exact ⟨rfl, rfl⟩
  · cases h

/-- Witness for `c6_set_speed_encoding`: `s1000` with the default calibration
3.47222 encodes frequency ⌊3472.22⌋ = 3472 = 0x0D90. -/
theorem c6_set_speed_encoding_witness :
    (processOne initVfd ['s', '1', '0', '0', '0']).2 =
      some (signMessage [0x01, 0x05, 0x02, 0x0D, 0x90]) ∧
    (processOne initVfd ['s', '1', '0', '0', '0']).1.setFrequency = 3472 := by
  have h := c6_set_speed_encoding initVfd ['1', '0', '0', '0'] 1000 (by decide)
  exact ⟨h.1.trans (by decide), h.2.trans (by decide)⟩

/-- Effect of the enqueue loop on the queue, the pending counter, and the ok
flag, for any starting queue within capacity: the first `10 - queue length`
tokens are appended in order, one pending-counter decrement happens per
dropped token, and the flag stays `true` exactly when nothing is dropped. -/
theorem gcodeEnqueue_spec (ts : List (List Char)) (s : HyInverter) (ok : Bool)
    (hq : s.queue.length ≤ 10) :
    (gcodeEnqueue s ok ts).1.queue = s.queue ++ ts.take (10 - s.queue.length) ∧
    (gcodeEnqueue s ok ts).1.commandQueue =
      s.commandQueue - ((ts.length - min ts.length (10 - s.queue.length) : ℕ) : ℤ) ∧
    (gcodeEnqueue s ok ts).2 = (ok && decide (ts.length ≤ 10 - s.queue.length)) := by
  induction ts generalizing s ok with
  | nil => simp [gcodeEnqueue]
  | cons t ts ih =>
      unfold gcodeEnqueue
      by_cases hlt : s.queue.length < 10
      · rw [if_pos hlt]
        have ih2 := ih { s with queue := s.queue ++ [t] } ok
          (by dsimp only; rw [List.length_append]; simp; omega)
        dsimp only at ih2
        rw [List.length_append, List.length_singleton] at ih2
        obtain ⟨ihq, ihc, ihok⟩ := ih2
        refine ⟨?_, ?_, ?_⟩
        · rw [ihq, List.append_assoc]
          congr 1
          rw [show 10 - s.queue.length = (10 - (s.queue.length + 1)) + 1 from by omega,
            List.take_succ_cons]
          rfl
        · rw [ihc, List.length_cons]
          congr 1
          have hmin : ts.length - min ts.length (10 - (s.queue.length + 1)) =
              ts.length + 1 - min (ts.length + 1) (10 - s.queue.length) := by omega
          rw [hmin]
        · rw [ihok, List.length_cons]
          congr 1
          rw [decide_eq_decide]
          omega
      · rw [if_neg hlt]
        have hlen : s.queue.length = 10 := by omega
        have ih2 := ih { s with commandQueue := s.commandQueue - 1 } false
          (by dsimp only; omega)
        dsimp only at ih2
        obtain ⟨ihq, ihc, ihok⟩ := ih2
        refine ⟨?_, ?_, ?_⟩
        · rw [ihq, hlen]
          simp
        · rw [ihc, List.length_cons, hlen]
          omega
        · rw [ihok, List.length_cons, hlen, Bool.false_and]
          have hnot : ¬(ts.length + 1 ≤ 10 - 10) := by omega
          simp [hnot]

/-- C7: submitting one call whose text splits into more tokens than the
bounded queue (capacity 10) has room for enqueues exactly the remaining
capacity's worth of tokens in submission order (earlier-accepted tokens stay
queued), leaves the pending counter increased by only the accepted count, and
returns `false`; a call in which no token is dropped appends all tokens,
increases the counter by the full count, and returns `true`. -/
theorem c7_gcode_backpressure (s : HyInverter) (cmd : List Char)
    (hq : s.queue.length ≤ 10) :
    ((goFields (gcodeSeparate cmd)).length > 10 - s.queue.length →
      (GCode s cmd).1.queue =
        s.queue ++ (goFields (gcodeSeparate cmd)).take (10 - s.queue.length) ∧
      (GCode s cmd).1.commandQueue =
        s.commandQueue + ((10 - s.queue.length : ℕ) : ℤ) ∧
      (GCode s cmd).2 = false) ∧
    ((goFields (gcodeSeparate cmd)).length ≤ 10 - s.queue.length →
      (GCode s cmd).1.queue = s.queue ++ goFields (gcodeSeparate cmd) ∧
      (GCode s cmd).1.commandQueue =
        s.commandQueue + ((goFields (gcodeSeparate cmd)).length : ℤ) ∧
      (GCode s cmd).2 = true) := by
  unfold GCode
  dsimp only
  obtain ⟨hqe, hcc, hok⟩ := gcodeEnqueue_spec (goFields (gcodeSeparate cmd))
    { s with commandQueue := s.commandQueue + (goFields (gcodeSeparate cmd)).length }
    true (by dsimp only; exact hq)
  dsimp only at hqe hcc hok
  constructor
  · intro hgt
    refine ⟨hqe, ?_, ?_⟩
    · rw [hcc]
      omega
    · rw [hok, Bool.true_and, decide_eq_false (by omega)]
  · intro hle
    refine ⟨?_, ?_, ?_⟩
    · rw [hqe, List.take_of_length_le hle]
    · rw [hcc]
      omega
    · rw [hok, Bool.true_and, decide_eq_true hle]

/-- Witness for `c7_gcode_backpressure`: a queue holding 9 tokens has room
for one more; `M3S400` splits into two tokens, so only `M3` is enqueued, the
pending counter rises by 1, and the call reports `false`. -/
theorem c7_gcode_backpressure_witness :
    ((GCode { initVfd with queue := List.replicate 9 ['x'] } ['M', '3', 'S', '4', '0', '0']).1.queue =
        List.replicate 9 ['x'] ++ [['M', '3']] ∧
      (GCode { initVfd with queue := List.replicate 9 ['x'] } ['M', '3', 'S', '4', '0', '0']).1.commandQueue = 1 ∧
      (GCode { initVfd with queue := List.replicate 9 ['x'] } ['M', '3', 'S', '4', '0', '0']).2 = false) := by
  have h := (c7_gcode_backpressure { initVfd with queue := List.replicate 9 ['x'] }
    ['M', '3', 'S', '4', '0', '0'] (by decide)).1 (by decide)
  exact ⟨h.1.trans (by decide), h.2.1.trans (by decide), h.2.2⟩

end Huanyango
